import Mathlib

/-!
Verification of the AI-Vision emergency-lighting extraction pipeline.

This file is a shallow embedding, in Lean 4, of the core fixture extraction
and classification pipeline of the repository:

* `src/app/vision/enhanced_detector.py`   (candidate detection and dedup)
* `src/app/utils/text_association.py`     (text association and typing)
* `src/app/vision/enhanced_llm_classifier.py` (grouping and fallback)

Modelling conventions:

* Python `int` pixel coordinates are embedded as `Int` (for text association)
  or, where they immediately feed rational arithmetic, as `Rat`.
* Python `float` confidences and areas are embedded as `Rat`; every concrete
  value the theorems touch (0.3, 0.5, 0.6, 0.8, integer areas and their
  quotients) is exactly representable in binary floating point and all
  operations involved are exact there, so the rational model agrees with the
  float computation on those inputs.
* Python dicts used as records are embedded as structures whose fields are the
  keys that the code reads or writes; every producer in the repository writes
  all of those keys, so `dict.get` with a default is field access.
* Python's in-place loops with a `used` index set are embedded as structural
  recursion on the list of not-yet-used elements, in iteration order.
* Fallible operations (network call, JSON decoding) are embedded as `Except`
  and `Option` parameters.
-/

namespace AIVision

/-! ## Common list helpers

`insertNew` models `set.add` on a Python `set` by keeping the underlying
collection as its insertion-ordered list of distinct elements; the
implementation-defined iteration order that `list(s)` imposes on a `set `s` is
modelled separately by an explicit listing function where it matters. -/

/-- Add an element to a duplicate-free list if not already present
(the contents of a Python `set` after `add`, in insertion order). -/
def insertNew (l : List String) (s : String) : List String :=
  if s ∈ l then l else l ++ [s]

/-- Deduplicate a list keeping first occurrences: the contents of a Python
`set` built by repeated `add`, in insertion order. -/
def dedupIns (l : List String) : List String :=
  l.foldl insertNew []

theorem mem_insertNew {l : List String} {s x : String} :
    x ∈ insertNew l s ↔ x ∈ l ∨ x = s := by
  unfold insertNew
  split
  · constructor
    · exact Or.inl
    · rintro (h | rfl) <;> [exact h; assumption]
  · simp [List.mem_append]

theorem insertNew_ne_nil (l : List String) (s : String) : insertNew l s ≠ [] := by
  unfold insertNew
  split
  · intro h
    subst h
    simp_all
  · simp

theorem insertNew_nodup {l : List String} (h : l.Nodup) (s : String) :
    (insertNew l s).Nodup := by
  unfold insertNew
  split
  · exact h
  · simp_all [List.nodup_append]

theorem dedupIns_append_singleton (l : List String) (s : String) :
    dedupIns (l ++ [s]) = insertNew (dedupIns l) s := by
  simp [dedupIns, List.foldl_append]

theorem dedupIns_subset {l : List String} {x : String} :
    x ∈ dedupIns l → x ∈ l := by
  suffices h : ∀ (l : List String) (acc : List String),
      x ∈ l.foldl insertNew acc → x ∈ acc ∨ x ∈ l by
    intro hx
    rcases h l [] hx with h' | h'
    · simp at h'
    · exact h'
  intro l
  induction l with
  | nil => intro acc h; exact Or.inl h
  | cons a t ih =>
      intro acc h
      rcases ih (insertNew acc a) h with h' | h'
      · rcases mem_insertNew.mp h' with h'' | h''
        · exact Or.inl h''
        · exact Or.inr (by simp [h''])
      · exact Or.inr (by simp [h'])

theorem dedupIns_eq_nil_iff {l : List String} : dedupIns l = [] ↔ l = [] := by
  constructor
  · intro h
    cases l with
    | nil => rfl
    | cons a t =>
        exfalso
        have : ∀ (t : List String) (acc : List String), acc ≠ [] →
            t.foldl insertNew acc ≠ [] := by
          intro t
          induction t with
          | nil => intro acc h _; exact h ‹_›
          | cons b t ih => intro acc _ h; exact ih _ (insertNew_ne_nil acc b) h
        exact this t (insertNew [] a) (insertNew_ne_nil [] a) h
  · rintro rfl; rfl

/-! ## `enhanced_detector.py` : candidate regions, IoU and overlap merge -/

namespace Detector

/-- An axis-aligned bounding box `[x1, y1, x2, y2]`, as produced by
`cv2.boundingRect` (`[x, y, x + w, y + h]`). -/
structure Box where
  x1 : ℚ
  y1 : ℚ
  x2 : ℚ
  y2 : ℚ
deriving DecidableEq

/-- One candidate detection, as built by the three strategy methods of
`EnhancedEmergencyLightingDetector`: keys `bounding_box`, `confidence`,
`method`, `area`. -/
structure Detection where
  bounding_box : Box
  confidence : ℚ
  method : String
  area : ℚ
deriving DecidableEq

/-- Embedding of `EnhancedEmergencyLightingDetector._calculate_iou`. -/
def _calculate_iou (bbox1 bbox2 : Box) : ℚ :=
  let x1_i := max bbox1.x1 bbox2.x1
  let y1_i := max bbox1.y1 bbox2.y1
  let x2_i := min bbox1.x2 bbox2.x2
  let y2_i := min bbox1.y2 bbox2.y2
  if x2_i ≤ x1_i ∨ y2_i ≤ y1_i then 0
  else
    let intersection := (x2_i - x1_i) * (y2_i - y1_i)
    let area1 := (bbox1.x2 - bbox1.x1) * (bbox1.y2 - bbox1.y1)
    let area2 := (bbox2.x2 - bbox2.x1) * (bbox2.y2 - bbox2.y1)
    let union := area1 + area2 - intersection
    if 0 < union then intersection / union else 0

/-- `True` iff the code's duplicate test
`self._calculate_iou(current_bbox, other_bbox) > 0.3` fires. -/
def overlaps (d o : Detection) : Bool :=
  decide ((3 : ℚ)/10 < _calculate_iou d.bounding_box o.bounding_box)

/-- Stable insertion into a list sorted by descending confidence:
a step of `detections.sort(key=lambda x: x['confidence'], reverse=True)`,
which is a stable descending sort. -/
def insertDesc (d : Detection) : List Detection → List Detection
  | [] => [d]
  | x :: xs => if d.confidence < x.confidence then x :: insertDesc d xs else d :: x :: xs

/-- Stable sort by descending confidence, embedding the in-place
`detections.sort(key=lambda x: x['confidence'], reverse=True)`. -/
def sortDesc : List Detection → List Detection
  | [] => []
  | d :: l => insertDesc d (sortDesc l)

/-- Python's `max(group, key=lambda x: x['confidence'])` scanned over
`best :: rest`: the current best is replaced only on strictly greater key, so
the first element attaining the maximum wins. -/
def maxByConf (best : Detection) : List Detection → Detection
  | [] => best
  | x :: xs => if best.confidence < x.confidence then maxByConf x xs else maxByConf best xs

/-- The `for i, detection in enumerate(detections)` loop of
`_merge_overlapping_detections`, acting on the sorted list.  State is the list
of indices not yet in `used`, in index order: the head is the next unused `i`;
the inner `j` loop claims exactly the later unused detections whose IoU with
the head's box exceeds 0.3 (they form `merged_group` together with the head
and enter `used`), and the highest-confidence member of the group is appended
to `merged`.  Indices claimed into a group are never revisited, which is
exactly the recursion on the unclaimed remainder. -/
def mergeLoop : List Detection → List Detection
  | [] => []
  | d :: rest =>
      maxByConf d (rest.filter fun o => overlaps d o) ::
        mergeLoop (rest.filter fun o => !overlaps d o)
termination_by l => l.length
decreasing_by
  exact Nat.lt_succ_of_le (List.length_filter_le _ _)

/-- Embedding of `EnhancedEmergencyLightingDetector._merge_overlapping_detections`:
empty guard, stable descending sort by confidence, then the greedy grouping
loop. -/
def _merge_overlapping_detections (detections : List Detection) : List Detection :=
  match detections with
  | [] => []
  | _ => mergeLoop (sortDesc detections)

/-- The `for method in methods: detections.extend(method(gray))` loop inside
the `try` block of `detect_shaded_rectangular_areas`: strategies run in order
and their results are concatenated; the first raised exception aborts the
whole loop. -/
def runMethods {Img : Type} :
    List (Img → Except Unit (List Detection)) → Img → Except Unit (List Detection)
  | [], _ => .ok []
  | m :: ms, gray =>
      match m gray with
      | .error e => .error e
      | .ok ds =>
          match runMethods ms gray with
          | .error e => .error e
          | .ok rest => .ok (ds ++ rest)

/-- Embedding of `detect_shaded_rectangular_areas`: the whole strategy loop
and the final merge run inside one `try`; any exception is caught, logged and
turned into an empty result for the page. -/
def detect_shaded_rectangular_areas {Img : Type}
    (methods : List (Img → Except Unit (List Detection))) (gray : Img) :
    List Detection :=
  match runMethods methods gray with
  | .ok detections => _merge_overlapping_detections detections
  | .error _ => []

/-- Sorted by non-increasing confidence (the state after the stable
descending `list.sort`). -/
def SortedDesc : List Detection → Prop :=
  List.Pairwise (fun a b => b.confidence ≤ a.confidence)

theorem mem_insertDesc {d x : Detection} {l : List Detection} :
    x ∈ insertDesc d l ↔ x = d ∨ x ∈ l := by
  induction l with
  | nil => simp [insertDesc]
  | cons a t ih =>
      unfold insertDesc
      split
      · simp only [List.mem_cons, ih]
        tauto
      · simp [List.mem_cons]

theorem sortedDesc_insertDesc {l : List Detection} (h : SortedDesc l) (d : Detection) :
    SortedDesc (insertDesc d l) := by
  induction l with
  | nil => simp [insertDesc, SortedDesc]
  | cons a t ih =>
      rcases List.pairwise_cons.mp h with ⟨ha, ht⟩
      unfold insertDesc
      by_cases hc : d.confidence < a.confidence
      · rw [if_pos hc]
        refine List.pairwise_cons.mpr ⟨?_, ih ht⟩
        intro y hy
        rcases mem_insertDesc.mp hy with rfl | hy
        · exact le_of_lt hc
        · exact ha y hy
      · rw [if_neg hc]
        refine List.pairwise_cons.mpr ⟨?_, h⟩
        intro y hy
        rcases List.mem_cons.mp hy with rfl | hy
        · exact not_lt.mp hc
        · exact le_trans (ha y hy) (not_lt.mp hc)

theorem sortedDesc_sortDesc (l : List Detection) : SortedDesc (sortDesc l) := by
  induction l with
  | nil => simp [sortDesc, SortedDesc]
  | cons a t ih => exact sortedDesc_insertDesc ih a

theorem sortDesc_eq_of_sorted {l : List Detection} (h : SortedDesc l) :
    sortDesc l = l := by
  induction l with
  | nil => rfl
  | cons a t ih =>
      rcases List.pairwise_cons.mp h with ⟨ha, ht⟩
      unfold sortDesc
      rw [ih ht]
      cases t with
      | nil => rfl
      | cons b u =>
          unfold insertDesc
          rw [if_neg (not_lt.mpr (ha b (by simp)))]

theorem maxByConf_eq_head {d : Detection} {g : List Detection}
    (h : ∀ x ∈ g, x.confidence ≤ d.confidence) : maxByConf d g = d := by
  induction g with
  | nil => rfl
  | cons a t ih =>
      unfold maxByConf
      rw [if_neg (not_lt.mpr (h a (by simp)))]
      exact ih fun x hx => h x (by simp [hx])

/-- One step of the greedy loop on a sorted list: the group head (the current
highest-confidence unclaimed detection) is kept and exactly the later unclaimed
detections overlapping it (IoU strictly above 0.3) are discarded. -/
theorem mergeLoop_cons_of_sorted {d : Detection} {rest : List Detection}
    (h : SortedDesc (d :: rest)) :
    mergeLoop (d :: rest) = d :: mergeLoop (rest.filter fun o => !overlaps d o) := by
  rcases List.pairwise_cons.mp h with ⟨ha, _⟩
  rw [mergeLoop]
  congr 1
  exact maxByConf_eq_head fun x hx => ha x (List.mem_of_mem_filter hx)

theorem mergeLoop_sublist {l : List Detection} (h : SortedDesc l) :
    List.Sublist (mergeLoop l) l := by
  induction l using mergeLoop.induct with
  | case1 => simp [mergeLoop]
  | case2 d rest ih =>
      rw [mergeLoop_cons_of_sorted h]
      have hfs : List.Sublist (rest.filter fun o => !overlaps d o) rest :=
        List.filter_sublist rest
      have hsorted : SortedDesc (rest.filter fun o => !overlaps d o) :=
        ((List.pairwise_cons.mp h).2).sublist hfs
      exact List.cons_sublist_cons.mpr (List.Sublist.trans (ih hsorted) hfs)

theorem mergeLoop_sorted {l : List Detection} (h : SortedDesc l) :
    SortedDesc (mergeLoop l) :=
  h.sublist (mergeLoop_sublist h)

/-- No two detections surviving the greedy loop on a sorted list overlap:
every later survivor was compared against each earlier survivor's box and
failed the `IoU > 0.3` duplicate test. -/
theorem mergeLoop_pairwise {l : List Detection} (h : SortedDesc l) :
    List.Pairwise (fun a b => overlaps a b = false) (mergeLoop l) := by
  induction l using mergeLoop.induct with
  | case1 => simp [mergeLoop]
  | case2 d rest ih =>
      rw [mergeLoop_cons_of_sorted h]
      have hfs : List.Sublist (rest.filter fun o => !overlaps d o) rest :=
        List.filter_sublist rest
      have hsorted : SortedDesc (rest.filter fun o => !overlaps d o) :=
        ((List.pairwise_cons.mp h).2).sublist hfs
      refine List.pairwise_cons.mpr ⟨?_, ih hsorted⟩
      intro b hb
      have hb' : b ∈ rest.filter fun o => !overlaps d o :=
        (mergeLoop_sublist hsorted).subset hb
      have := List.of_mem_filter hb'
      simpa using this

/-- On a list in which no pair overlaps, the greedy loop keeps everything. -/
theorem mergeLoop_eq_self {l : List Detection}
    (hp : List.Pairwise (fun a b => overlaps a b = false) l) :
    mergeLoop l = l := by
  induction l using mergeLoop.induct with
  | case1 => simp [mergeLoop]
  | case2 d rest ih =>
      rcases List.pairwise_cons.mp hp with ⟨hd, ht⟩
      rw [mergeLoop]
      have h1 : (rest.filter fun o => overlaps d o) = [] := by
        rw [List.filter_eq_nil_iff]
        intro a ha
        simp [hd a ha]
      have h2 : (rest.filter fun o => !overlaps d o) = rest := by
        rw [List.filter_eq_self]
        intro a ha
        simp [hd a ha]
      have hih := ih (by rw [h2]; exact ht)
      rw [h2] at hih
      rw [h1, h2, hih]
      rfl

/-- Two axis-aligned boxes are disjoint (non-overlapping): they are separated
along the x axis or along the y axis. -/
def DisjointBoxes (a b : Box) : Prop :=
  a.x2 ≤ b.x1 ∨ b.x2 ≤ a.x1 ∨ a.y2 ≤ b.y1 ∨ b.y2 ≤ a.y1

instance (a b : Box) : Decidable (DisjointBoxes a b) := by
  unfold DisjointBoxes; infer_instance

/-- C7: `_calculate_iou` is symmetric; a box has IoU `1` with itself when it
has positive extent; disjoint boxes have IoU `0`. -/
theorem calculate_iou_algebra (A B : Box)
    (hA : A.x1 < A.x2 ∧ A.y1 < A.y2) (_hB : B.x1 < B.x2 ∧ B.y1 < B.y2) :
    _calculate_iou A B = _calculate_iou B A ∧
    _calculate_iou A A = 1 ∧
    (DisjointBoxes A B → _calculate_iou A B = 0) := by
  refine ⟨?_, ?_, ?_⟩
  · simp only [_calculate_iou]
    rw [max_comm B.x1 A.x1, max_comm B.y1 A.y1, min_comm B.x2 A.x2, min_comm B.y2 A.y2,
      add_comm ((B.x2 - B.x1) * (B.y2 - B.y1)) ((A.x2 - A.x1) * (A.y2 - A.y1))]
  · obtain ⟨hx, hy⟩ := hA
    simp only [_calculate_iou, max_self, min_self]
    rw [if_neg, if_pos]
    · have harea : (A.x2 - A.x1) * (A.y2 - A.y1) ≠ 0 :=
        ne_of_gt (mul_pos (sub_pos.mpr hx) (sub_pos.mpr hy))
      field_simp
    · have : (A.x2 - A.x1) * (A.y2 - A.y1) +
          (A.x2 - A.x1) * (A.y2 - A.y1) - (A.x2 - A.x1) * (A.y2 - A.y1) =
          (A.x2 - A.x1) * (A.y2 - A.y1) := by ring
      rw [this]
      exact mul_pos (sub_pos.mpr hx) (sub_pos.mpr hy)
    · push_neg
      exact ⟨hx, hy⟩
  · intro hd
    simp only [_calculate_iou]
    rw [if_pos]
    rcases hd with h | h | h | h
    · exact Or.inl (le_trans (min_le_left A.x2 B.x2) (le_trans h (le_max_right A.x1 B.x1)))
    · exact Or.inl (le_trans (min_le_right A.x2 B.x2) (le_trans h (le_max_left A.x1 B.x1)))
    · exact Or.inr (le_trans (min_le_left A.y2 B.y2) (le_trans h (le_max_right A.y1 B.y1)))
    · exact Or.inr (le_trans (min_le_right A.y2 B.y2) (le_trans h (le_max_left A.y1 B.y1)))

/-- Witness for `calculate_iou_algebra` at the concrete disjoint boxes
`[0, 0, 2, 2]` and `[5, 5, 7, 9]`. -/
theorem calculate_iou_algebra_witness :
    ((0 : ℚ) < 2 ∧ (0 : ℚ) < 2) ∧ ((5 : ℚ) < 7 ∧ (5 : ℚ) < 9) ∧
    (_calculate_iou ⟨0, 0, 2, 2⟩ ⟨5, 5, 7, 9⟩ = _calculate_iou ⟨5, 5, 7, 9⟩ ⟨0, 0, 2, 2⟩ ∧
      _calculate_iou ⟨0, 0, 2, 2⟩ ⟨0, 0, 2, 2⟩ = 1 ∧
      (DisjointBoxes ⟨0, 0, 2, 2⟩ ⟨5, 5, 7, 9⟩ →
        _calculate_iou ⟨0, 0, 2, 2⟩ ⟨5, 5, 7, 9⟩ = 0)) :=
  ⟨⟨by norm_num, by norm_num⟩, ⟨by norm_num, by norm_num⟩,
    calculate_iou_algebra ⟨0, 0, 2, 2⟩ ⟨5, 5, 7, 9⟩
      ⟨by norm_num, by norm_num⟩ ⟨by norm_num, by norm_num⟩⟩

theorem merge_as_loop (m : List Detection) :
    _merge_overlapping_detections m = mergeLoop (sortDesc m) := by
  cases m with
  | nil => simp [_merge_overlapping_detections, sortDesc, mergeLoop]
  | cons a t => rfl

/-- C9: the overlap-merge step is idempotent, and no pair of detections in
its output still passes the `IoU > 0.3` same-fixture test. -/
theorem merge_overlapping_idempotent (l : List Detection) :
    _merge_overlapping_detections (_merge_overlapping_detections l)
        = _merge_overlapping_detections l ∧
    List.Pairwise
      (fun a b => ¬ ((3 : ℚ)/10 < _calculate_iou a.bounding_box b.bounding_box))
      (_merge_overlapping_detections l) := by
  have hsorted : SortedDesc (mergeLoop (sortDesc l)) :=
    mergeLoop_sorted (sortedDesc_sortDesc l)
  have hpair : List.Pairwise (fun a b => overlaps a b = false) (mergeLoop (sortDesc l)) :=
    mergeLoop_pairwise (sortedDesc_sortDesc l)
  constructor
  · rw [merge_as_loop l, merge_as_loop (mergeLoop (sortDesc l)),
      sortDesc_eq_of_sorted hsorted, mergeLoop_eq_self hpair]
  · rw [merge_as_loop l]
    exact hpair.imp (by intro a b hab; simpa [overlaps] using hab)

/-- The lower-confidence candidate of spec scenario B: box `[0, 0, 10, 5]`,
confidence `0.6`. -/
def scenarioLow : Detection := ⟨⟨0, 0, 10, 5⟩, 3/5, "adaptive_threshold", 50⟩

/-- The higher-confidence candidate of spec scenario B: box `[0, 0, 10, 10]`,
confidence `0.8`; IoU with `scenarioLow` is `0.5`. -/
def scenarioHigh : Detection := ⟨⟨0, 0, 10, 10⟩, 4/5, "otsu_threshold", 100⟩

/-- C3 (amended): deduplication pools the candidates, sorts them by
descending confidence, and greedily forms overlap groups: the group head
claims exactly the later unclaimed candidates whose IoU with it is strictly
greater than 0.3, each claimed candidate has confidence at most the head's,
and only the head (the highest-confidence member) is kept.  In particular two
candidates with IoU 0.5 and confidences 0.6 and 0.8 are reduced to exactly
the 0.8-confidence candidate. -/
theorem merge_overlapping_greedy_spec :
    (∀ l : List Detection, _merge_overlapping_detections l = mergeLoop (sortDesc l)) ∧
    (∀ (d : Detection) (rest : List Detection), SortedDesc (d :: rest) →
      mergeLoop (d :: rest) = d :: mergeLoop (rest.filter fun o => !overlaps d o) ∧
      ∀ o ∈ rest.filter (fun o => overlaps d o), o.confidence ≤ d.confidence) ∧
    _calculate_iou scenarioLow.bounding_box scenarioHigh.bounding_box = 1/2 ∧
    _merge_overlapping_detections [scenarioLow, scenarioHigh] = [scenarioHigh] := by
  refine ⟨merge_as_loop, ?_, by norm_num [scenarioLow, scenarioHigh, _calculate_iou], ?_⟩
  · intro d rest h
    refine ⟨mergeLoop_cons_of_sorted h, ?_⟩
    intro o ho
    exact (List.pairwise_cons.mp h).1 o (List.mem_of_mem_filter ho)
  · have hov : overlaps scenarioHigh scenarioLow = true := by
      simp only [overlaps, decide_eq_true_eq]
      norm_num [scenarioLow, scenarioHigh, _calculate_iou, min_def, max_def]
    have hsort : sortDesc [scenarioLow, scenarioHigh] = [scenarioHigh, scenarioLow] := by
      norm_num [sortDesc, insertDesc, scenarioLow, scenarioHigh]
    have hf1 : ([scenarioLow].filter fun o => overlaps scenarioHigh o) = [scenarioLow] := by
      simp [hov]
    have hf2 : ([scenarioLow].filter fun o => !overlaps scenarioHigh o) = [] := by
      simp [hov]
    have hmax : maxByConf scenarioHigh [scenarioLow] = scenarioHigh := by
      norm_num [maxByConf, scenarioLow, scenarioHigh]
    rw [merge_as_loop, hsort, mergeLoop, hf1, hf2, hmax, mergeLoop]

theorem sorted_scenario : SortedDesc [scenarioHigh, scenarioLow] := by
  norm_num [SortedDesc, List.pairwise_cons, scenarioHigh, scenarioLow]

/-- Witness for `merge_overlapping_greedy_spec`: the greedy-step
characterisation applied to the concrete sorted list
`[scenarioHigh, scenarioLow]`. -/
theorem merge_overlapping_greedy_spec_witness :
    SortedDesc [scenarioHigh, scenarioLow] ∧
    mergeLoop [scenarioHigh, scenarioLow]
      = scenarioHigh :: mergeLoop ([scenarioLow].filter fun o => !overlaps scenarioHigh o) :=
  ⟨sorted_scenario,
    (merge_overlapping_greedy_spec.2.1 scenarioHigh [scenarioLow] sorted_scenario).1⟩

/-- A candidate whose box `[0, 0, 10, 3]` has IoU exactly `0.3` with
`[0, 0, 10, 10]`. -/
def boundaryLow : Detection := ⟨⟨0, 0, 10, 3⟩, 3/5, "edge_detection", 30⟩

/-- Counterexample to C3 as stated: at IoU exactly `0.3` the claim's
`IoU ≥ 0.3` same-fixture test would group the two candidates and keep only
the 0.8-confidence one, but the code's test is the strict `iou > 0.3`, so
both candidates are kept. -/
theorem merge_overlapping_geq_cex :
    _calculate_iou (⟨0, 0, 10, 10⟩ : Box) ⟨0, 0, 10, 3⟩ = 3/10 ∧
    _merge_overlapping_detections [scenarioHigh, boundaryLow]
      = [scenarioHigh, boundaryLow] ∧
    _merge_overlapping_detections [scenarioHigh, boundaryLow] ≠ [scenarioHigh] := by
  have hov : overlaps scenarioHigh boundaryLow = false := by
    simp only [overlaps, decide_eq_false_iff_not]
    norm_num [scenarioHigh, boundaryLow, _calculate_iou, min_def, max_def]
  have hsort : sortDesc [scenarioHigh, boundaryLow] = [scenarioHigh, boundaryLow] := by
    norm_num [sortDesc, insertDesc, scenarioHigh, boundaryLow]
  have hf1 : ([boundaryLow].filter fun o => overlaps scenarioHigh o) = [] := by
    simp [hov]
  have hf2 : ([boundaryLow].filter fun o => !overlaps scenarioHigh o) = [boundaryLow] := by
    simp [hov]
  have hmerge : _merge_overlapping_detections [scenarioHigh, boundaryLow]
      = [scenarioHigh, boundaryLow] := by
    rw [merge_as_loop, hsort, mergeLoop, hf1, hf2, mergeLoop]
    have hf3 : (([] : List Detection).filter fun o => overlaps boundaryLow o) = [] := rfl
    have hf4 : (([] : List Detection).filter fun o => !overlaps boundaryLow o) = [] := rfl
    rw [hf3, hf4, mergeLoop]
    rfl
  refine ⟨by norm_num [_calculate_iou, min_def, max_def], hmerge, ?_⟩
  rw [hmerge]
  simp

/-- A detection strategy that raises on the given page image. -/
def badMethod : Unit → Except Unit (List Detection) := fun _ => .error ()

/-- A detection strategy that succeeds with one candidate. -/
def goodMethod : Unit → Except Unit (List Detection) := fun _ => .ok [scenarioHigh]

/-- Counterexample to C4 as stated: when the first strategy raises, the whole
detection returns `[]`; the claim would have the surviving strategy's
candidate (`scenarioHigh`) still appear in the result. -/
theorem detect_strategy_isolation_cex :
    detect_shaded_rectangular_areas [badMethod, goodMethod] () = [] ∧
    _merge_overlapping_detections [scenarioHigh] = [scenarioHigh] ∧
    ([] : List Detection) ≠ [scenarioHigh] := by
  refine ⟨rfl, ?_, by simp⟩
  have hf1 : (([] : List Detection).filter fun o => overlaps scenarioHigh o) = [] := rfl
  have hf2 : (([] : List Detection).filter fun o => !overlaps scenarioHigh o) = [] := rfl
  rw [merge_as_loop, show sortDesc [scenarioHigh] = [scenarioHigh] from rfl,
    mergeLoop, hf1, hf2, mergeLoop]
  rfl

/-- C4 (amended): if any single strategy raises during
`detect_shaded_rectangular_areas`, the exception is caught at the level of the
whole strategy loop, detection for the image is aborted, and the empty
sequence is returned — no strategy's candidates survive. -/
theorem detect_aborts_on_strategy_error {Img : Type} (gray : Img)
    (pre post : List (Img → Except Unit (List Detection)))
    (bad : Img → Except Unit (List Detection))
    (hpre : ∀ m ∈ pre, ∃ ds, m gray = .ok ds)
    (hbad : bad gray = .error ()) :
    detect_shaded_rectangular_areas (pre ++ bad :: post) gray = [] := by
  have herr : runMethods (pre ++ bad :: post) gray = .error () := by
    induction pre with
    | nil => simp [runMethods, hbad]
    | cons m ms ih =>
        obtain ⟨ds, hds⟩ := hpre m (by simp)
        have := ih (fun m' hm' => hpre m' (by simp [hm']))
        simp [runMethods, hds, this]
  simp [detect_shaded_rectangular_areas, herr]

/-- Witness for `detect_aborts_on_strategy_error` at a concrete succeeding
strategy followed by a raising one. -/
theorem detect_aborts_on_strategy_error_witness :
    badMethod () = .error () ∧
    detect_shaded_rectangular_areas [goodMethod, badMethod] () = [] :=
  ⟨rfl,
    detect_aborts_on_strategy_error () [goodMethod] [] badMethod
      (fun m hm => ⟨[scenarioHigh], by
        rcases List.mem_singleton.mp hm with rfl
        rfl⟩)
      rfl⟩

end Detector

/-! ## `enhanced_llm_classifier.py` : classification, grouping and fallback

The network call of `_call_openai_api` and the JSON decoding done by
`json.loads` are external effects; they enter the embedding as parameters
(`api_response : Except Unit String` for the call's outcome and
`decode : String → Option ClassResult` for the decoding of the extracted
brace-delimited slice).  The iteration order that `list(...)` imposes on a
Python `set` is implementation-defined (string hashing is randomized), so it
enters the embedding as a parameter `listSet` which in the theorems is only
assumed to produce a permutation of the set's elements. -/

namespace Classifier

/-- A combined detection record as consumed by
`classify_and_group_emergency_lighting`; `_combine_detections` writes all of
these keys on every record, so `detection.get(key, default)` is field
access. -/
structure LDetection where
  symbol : String
  type : String
  description : String
  bounding_box : List ℤ
  text_nearby : List String
  source_sheet : String
  confidence : ℚ
deriving DecidableEq

/-- One record of `detailed_detections`, built by the second loop of
`_fallback_grouping`. -/
structure DetailedDetection where
  symbol : String
  type : String
  description : String
  bounding_box : List ℤ
  text_nearby : List String
  source_sheet : String
  confidence : ℚ
deriving DecidableEq

/-- The dict literal appended to `detailed_detections` for one detection. -/
def toDetail (d : LDetection) : DetailedDetection :=
  { symbol := d.symbol
    type := d.type
    description := d.description
    bounding_box := d.bounding_box
    text_nearby := d.text_nearby
    source_sheet := d.source_sheet
    confidence := d.confidence }

/-- The per-type accumulator of `_fallback_grouping`:
`{'count': …, 'symbols': set(), 'descriptions': set()}`.  The two sets are
carried as their insertion-ordered lists of distinct elements. -/
structure GroupData where
  count : ℕ
  symbols : List String
  descriptions : List String
deriving DecidableEq

/-- One value of the `summary` mapping. -/
structure Group where
  count : ℕ
  description : String
  symbols : List String
deriving DecidableEq

/-- The result shape of classification:
`{"summary": …, "detailed_detections": …}`.  `summary` is an
insertion-ordered association list, like the Python dict. -/
structure ClassResult where
  summary : List (String × Group)
  detailed_detections : List DetailedDetection
deriving DecidableEq

/-- The body of the accumulation loop for one detection of an already-present
type: `count += 1`, `symbols.add(symbol)`, and `descriptions.add(description)`
guarded by `if description`. -/
def bumpG (g : GroupData) (d : LDetection) : GroupData :=
  { count := g.count + 1
    symbols := insertNew g.symbols d.symbol
    descriptions :=
      if d.description ≠ "" then insertNew g.descriptions d.description
      else g.descriptions }

/-- One iteration of the first loop of `_fallback_grouping`: initialise the
type's accumulator if absent (dict insertion appends the key), then bump it. -/
def stepG (acc : List (String × GroupData)) (d : LDetection) :
    List (String × GroupData) :=
  if d.type ∈ acc.map Prod.fst then
    acc.map fun p => if p.1 = d.type then (p.1, bumpG p.2 d) else p
  else acc ++ [(d.type, bumpG ⟨0, [], []⟩ d)]

/-- The `grouped_detections` dict after the first loop of
`_fallback_grouping`, as an insertion-ordered association list. -/
def accumGroups (detections : List LDetection) : List (String × GroupData) :=
  detections.foldl stepG []

/-- The label `f"Lights{i:02d}"`. -/
def lightsLabel (i : ℕ) : String :=
  if i < 10 then "Lights0" ++ toString i else "Lights" ++ toString i

/-- `fixture_type.replace('_', ' ')`. -/
def replaceUnderscores (s : String) : String :=
  ⟨s.data.map fun c => if c = '_' then ' ' else c⟩

/-- Character scan implementing Python `str.title()`: an alphabetic character
is upper-cased when the previous character is not alphabetic and lower-cased
otherwise. -/
def titleMap : Bool → List Char → List Char
  | _, [] => []
  | prevAlpha, c :: cs =>
      if c.isAlpha then
        (if prevAlpha then c.toLower else c.toUpper) :: titleMap true cs
      else c :: titleMap false cs

/-- Python `str.title()`. -/
def pyTitle (s : String) : String := ⟨titleMap false s.data⟩

/-- The default group description
`f"{fixture_type.replace('_', ' ').title()} Fixture"`. -/
def defaultDescription (fixture_type : String) : String :=
  pyTitle (replaceUnderscores fixture_type) ++ " Fixture"

/-- The summary value built for one `(fixture_type, group_data)` entry:
`descriptions = list(group_data['descriptions'])`, then
`descriptions[0] if descriptions else` the default, and
`symbols = list(group_data['symbols'])`. -/
def mkGroup (listSet : List String → List String) (fixture_type : String)
    (g : GroupData) : Group :=
  { count := g.count
    description :=
      match listSet g.descriptions with
      | [] => defaultDescription fixture_type
      | d :: _ => d
    symbols := listSet g.symbols }

/-- The `for i, (fixture_type, group_data) in enumerate(grouped_detections.items(), 1)`
loop building `summary`, with `i` the running 1-based index. -/
def summaryFrom (listSet : List String → List String) :
    ℕ → List (String × GroupData) → List (String × Group)
  | _, [] => []
  | i, (t, g) :: rest =>
      (lightsLabel i, mkGroup listSet t g) :: summaryFrom listSet (i + 1) rest

/-- Embedding of `EnhancedLLMClassifier._fallback_grouping`.  `listSet`
models `list(…)` applied to a Python `set` given the set's insertion-ordered
distinct elements; `static_content` is never read on this path. -/
def _fallback_grouping (listSet : List String → List String)
    (detections : List LDetection) (_static_content : Unit) : ClassResult :=
  { summary := summaryFrom listSet 1 (accumGroups detections)
    detailed_detections := detections.map toDetail }

/-- `'\x7b'`, written by code point to keep the source free of brace
characters. -/
def openBraceChar : Char := Char.ofNat 123

/-- `'\x7d'`. -/
def closeBraceChar : Char := Char.ofNat 125

/-- The brace-extraction step of `_parse_llm_response`:
`start_idx = response.find('\x7b')`, `end_idx = response.rfind('\x7d') + 1`,
and the slice `response[start_idx:end_idx]` if both were found
(`start_idx != -1 and end_idx != 0`). -/
def braceSlice (response : String) : Option String :=
  let cs := response.data
  match cs.findIdx? (fun c => c = openBraceChar),
      cs.reverse.findIdx? (fun c => c = closeBraceChar) with
  | some s, some r =>
      let e := cs.length - 1 - r
      some ⟨(cs.drop s).take (e + 1 - s)⟩
  | _, _ => none

/-- `{"summary": {}, "detailed_detections": []}`, the value returned by the
`except` arm of `_parse_llm_response`. -/
def emptyResult : ClassResult := { summary := [], detailed_detections := [] }

/-- Embedding of `EnhancedLLMClassifier._parse_llm_response`.  Both the
"no JSON found" `ValueError` and a `json.loads` failure are caught by the
function's own `except`, which returns `emptyResult`; the function never
raises. -/
def _parse_llm_response (decode : String → Option ClassResult)
    (response : String) : ClassResult :=
  match braceSlice response with
  | some json_str =>
      match decode json_str with
      | some result => result
      | none => emptyResult
  | none => emptyResult

/-- Embedding of `EnhancedLLMClassifier.classify_and_group_emergency_lighting`.
`api_key = ""` models a falsy key (`if not self.api_key`).  The `try` block
covers prompt construction (pure string formatting, cannot raise) and the API
call, whose outcome is `api_response`; `_parse_llm_response` cannot raise, so
its result is returned as is. -/
def classify_and_group_emergency_lighting (listSet : List String → List String)
    (api_key : String) (api_response : Except Unit String)
    (decode : String → Option ClassResult)
    (detections : List LDetection) (static_content : Unit) : ClassResult :=
  if api_key = "" then _fallback_grouping listSet detections static_content
  else
    match api_response with
    | .error _ => _fallback_grouping listSet detections static_content
    | .ok response => _parse_llm_response decode response

/-- The distinct `fixture_type` values of the detections, in first-encounter
order: the key order of the `grouped_detections` dict. -/
def firstEncounterTypes (detections : List LDetection) : List String :=
  detections.foldl (fun acc d => insertNew acc d.type) []

/-- The non-empty descriptions carried by detections of type `t`, in
encounter order (with duplicates). -/
def typeDescriptions (detections : List LDetection) (t : String) : List String :=
  ((detections.filter fun d => d.type = t).map fun d => d.description).filter
    fun s => ¬ s = ""

/-- The accumulator value reached for type `t` after the whole first loop of
`_fallback_grouping`. -/
def groupOf (detections : List LDetection) (t : String) : GroupData :=
  { count := (detections.filter fun d => d.type = t).length
    symbols := dedupIns ((detections.filter fun d => d.type = t).map fun d => d.symbol)
    descriptions := dedupIns (typeDescriptions detections t) }

theorem mem_firstEncounterTypes {dets : List LDetection} {t : String} :
    t ∈ firstEncounterTypes dets ↔ ∃ d ∈ dets, d.type = t := by
  suffices h : ∀ (l : List LDetection) (acc : List String),
      (t ∈ l.foldl (fun acc d => insertNew acc d.type) acc ↔
        t ∈ acc ∨ ∃ d ∈ l, d.type = t) by
    simpa using h dets []
  intro l
  induction l with
  | nil => intro acc; simp
  | cons d rest ih =>
      intro acc
      rw [List.foldl_cons, ih, mem_insertNew]
      constructor
      · rintro ((h | h) | ⟨e, he, het⟩)
        · exact Or.inl h
        · exact Or.inr ⟨d, by simp, h.symm⟩
        · exact Or.inr ⟨e, by simp [he], het⟩
      · rintro (h | ⟨e, he, het⟩)
        · exact Or.inl (Or.inl h)
        · rcases List.mem_cons.mp he with rfl | he'
          · exact Or.inl (Or.inr het.symm)
          · exact Or.inr ⟨e, he', het⟩

theorem firstEncounterTypes_nodup (dets : List LDetection) :
    (firstEncounterTypes dets).Nodup := by
  suffices h : ∀ (l : List LDetection) (acc : List String), acc.Nodup →
      (l.foldl (fun acc d => insertNew acc d.type) acc).Nodup from
    h dets [] List.nodup_nil
  intro l
  induction l with
  | nil => intro acc h; exact h
  | cons d rest ih => intro acc h; exact ih _ (insertNew_nodup h d.type)

theorem firstEncounterTypes_append (dets : List LDetection) (d : LDetection) :
    firstEncounterTypes (dets ++ [d])
      = insertNew (firstEncounterTypes dets) d.type := by
  simp [firstEncounterTypes, List.foldl_append]

theorem filter_type_append_same (dets : List LDetection) (d : LDetection) :
    ((dets ++ [d]).filter fun x => x.type = d.type)
      = (dets.filter fun x => x.type = d.type) ++ [d] := by
  rw [List.filter_append]
  simp

theorem filter_type_append_other (dets : List LDetection) (d : LDetection)
    {t : String} (h : t ≠ d.type) :
    ((dets ++ [d]).filter fun x => x.type = t)
      = dets.filter fun x => x.type = t := by
  rw [List.filter_append]
  have hd : (decide (d.type = t)) = false := by simp [Ne.symm h]
  simp [List.filter_cons, hd]

theorem typeDescriptions_append_same (dets : List LDetection) (d : LDetection) :
    typeDescriptions (dets ++ [d]) d.type
      = typeDescriptions dets d.type
          ++ (if d.description ≠ "" then [d.description] else []) := by
  unfold typeDescriptions
  rw [filter_type_append_same, List.map_append, List.filter_append]
  congr 1
  by_cases h : d.description = "" <;> simp [h]

theorem typeDescriptions_append_other (dets : List LDetection) (d : LDetection)
    {t : String} (h : t ≠ d.type) :
    typeDescriptions (dets ++ [d]) t = typeDescriptions dets t := by
  unfold typeDescriptions
  rw [filter_type_append_other dets d h]

theorem groupOf_append_same (dets : List LDetection) (d : LDetection) :
    groupOf (dets ++ [d]) d.type = bumpG (groupOf dets d.type) d := by
  unfold groupOf bumpG
  simp only [GroupData.mk.injEq]
  refine ⟨?_, ?_, ?_⟩
  · rw [filter_type_append_same]
    simp
  · rw [filter_type_append_same, List.map_append]
    exact dedupIns_append_singleton _ _
  · rw [typeDescriptions_append_same]
    by_cases h : d.description = ""
    · simp [h]
    · simp only [h, ne_eq, not_false_iff, if_true]
      exact dedupIns_append_singleton _ _

theorem groupOf_append_other (dets : List LDetection) (d : LDetection)
    {t : String} (h : t ≠ d.type) :
    groupOf (dets ++ [d]) t = groupOf dets t := by
  unfold groupOf
  rw [filter_type_append_other dets d h, typeDescriptions_append_other dets d h]

theorem groupOf_eq_empty {dets : List LDetection} {t : String}
    (h : ∀ d ∈ dets, d.type ≠ t) : groupOf dets t = ⟨0, [], []⟩ := by
  have hf : (dets.filter fun x => x.type = t) = [] := by
    rw [List.filter_eq_nil_iff]
    intro a ha
    simpa using h a ha
  unfold groupOf typeDescriptions
  rw [hf]
  rfl

/-- Characterisation of the `grouped_detections` dict after the first loop of
`_fallback_grouping`: one entry per distinct `fixture_type` in first-encounter
order, holding the count, the distinct symbols in insertion order, and the
distinct non-empty descriptions in insertion order. -/
theorem accumGroups_eq (dets : List LDetection) :
    accumGroups dets
      = (firstEncounterTypes dets).map fun t => (t, groupOf dets t) := by
  induction dets using List.reverseRecOn with
  | nil => rfl
  | append_singleton dets d ih =>
      have hstep : accumGroups (dets ++ [d]) = stepG (accumGroups dets) d := by
        unfold accumGroups
        rw [List.foldl_append]
        rfl
      rw [hstep, ih, firstEncounterTypes_append]
      by_cases hmem : d.type ∈ firstEncounterTypes dets
      · rw [show insertNew (firstEncounterTypes dets) d.type
              = firstEncounterTypes dets by unfold insertNew; rw [if_pos hmem]]
        unfold stepG
        rw [if_pos (by rw [List.map_map]; simpa using hmem)]
        rw [List.map_map]
        refine List.map_congr_left ?_
        intro t ht
        simp only [Function.comp_apply]
        by_cases heq : t = d.type
        · subst heq
          rw [if_pos rfl, groupOf_append_same]
        · rw [if_neg heq, groupOf_append_other dets d heq]
      · rw [show insertNew (firstEncounterTypes dets) d.type
              = firstEncounterTypes dets ++ [d.type] by
            unfold insertNew; rw [if_neg hmem]]
        unfold stepG
        rw [if_neg (by rw [List.map_map]; simpa using hmem)]
        rw [List.map_append]
        congr 1
        · refine List.map_congr_left ?_
          intro t ht
          have hne : t ≠ d.type := fun h => hmem (h ▸ ht)
          rw [groupOf_append_other dets d hne]
        · have hempty : groupOf dets d.type = ⟨0, [], []⟩ := by
            refine groupOf_eq_empty ?_
            intro e he het
            exact hmem (mem_firstEncounterTypes.mpr ⟨e, he, het⟩)
          simp only [List.map_cons, List.map_nil]
          rw [groupOf_append_same, hempty]

theorem sum_map_add_pointwise {α : Type} (l : List α) (f g : α → ℕ) :
    (l.map fun x => f x + g x).sum = (l.map f).sum + (l.map g).sum := by
  induction l with
  | nil => rfl
  | cons a t ih =>
      simp only [List.map_cons, List.sum_cons, ih]
      omega

theorem sum_map_ite_zero (x : String) (ts : List String) (h : x ∉ ts) :
    (ts.map fun t => if x = t then 1 else 0).sum = 0 := by
  induction ts with
  | nil => rfl
  | cons a t ih =>
      have hxa : x ≠ a := fun he => h (by simp [he])
      simp only [List.map_cons, List.sum_cons, if_neg hxa]
      rw [ih fun he => h (by simp [he])]

theorem sum_map_ite_one (x : String) (ts : List String) (hnd : ts.Nodup)
    (h : x ∈ ts) : (ts.map fun t => if x = t then 1 else 0).sum = 1 := by
  induction ts with
  | nil => simp at h
  | cons a t ih =>
      rcases List.nodup_cons.mp hnd with ⟨ha, hnd'⟩
      rcases List.mem_cons.mp h with rfl | hx
      · simp only [List.map_cons, List.sum_cons, if_pos rfl]
        rw [sum_map_ite_zero x t ha]
        simp
      · have hxa : x ≠ a := fun he => ha (he ▸ hx)
        simp only [List.map_cons, List.sum_cons, if_neg hxa]
        rw [ih hnd' hx]

/-- The per-type counts over any duplicate-free covering list of types
partition the detections. -/
theorem sum_filter_lengths (ts : List String) (dets : List LDetection)
    (hnd : ts.Nodup) (hcov : ∀ d ∈ dets, d.type ∈ ts) :
    (ts.map fun t => (dets.filter fun d => d.type = t).length).sum = dets.length := by
  induction dets with
  | nil => simp
  | cons d rest ih =>
      have hpt : ∀ t ∈ ts, ((d :: rest).filter fun x => x.type = t).length
          = (if d.type = t then 1 else 0) + (rest.filter fun x => x.type = t).length := by
        intro t _
        by_cases h : d.type = t
        · simp [List.filter_cons, h]
          omega
        · simp [List.filter_cons, h]
      rw [List.map_congr_left hpt, sum_map_add_pointwise,
        sum_map_ite_one d.type ts hnd (hcov d (by simp)),
        ih fun e he => hcov e (by simp [he])]
      simp only [List.length_cons]
      omega

theorem summaryFrom_counts (listSet : List String → List String)
    (gs : List (String × GroupData)) :
    ∀ i : ℕ, ((summaryFrom listSet i gs).map fun p => p.2.count)
      = gs.map fun q => q.2.count := by
  induction gs with
  | nil => intro i; rfl
  | cons a t ih =>
      intro i
      cases a with
      | mk ta ga => simp [summaryFrom, mkGroup, ih (i + 1)]

/-- C1: on the fallback path, the group counts sum to the number of detailed
detections, and `detailed_detections` has exactly one record per input
detection, in encounter order. -/
theorem fallback_count_invariant (listSet : List String → List String)
    (detections : List LDetection) :
    (((_fallback_grouping listSet detections ()).summary.map fun p => p.2.count).sum
        = (_fallback_grouping listSet detections ()).detailed_detections.length)
    ∧ (_fallback_grouping listSet detections ()).detailed_detections
        = detections.map toDetail := by
  refine ⟨?_, rfl⟩
  show ((summaryFrom listSet 1 (accumGroups detections)).map fun p => p.2.count).sum
      = (detections.map toDetail).length
  rw [summaryFrom_counts, accumGroups_eq, List.map_map, List.length_map]
  have hc : ((fun q : String × GroupData => q.2.count)
        ∘ fun t => (t, groupOf detections t))
      = fun t => (detections.filter fun d => d.type = t).length := rfl
  rw [hc]
  exact sum_filter_lengths _ _ (firstEncounterTypes_nodup detections)
    fun d hd => mem_firstEncounterTypes.mpr ⟨d, hd, rfl⟩

theorem summaryFrom_length (listSet : List String → List String)
    (gs : List (String × GroupData)) :
    ∀ i : ℕ, (summaryFrom listSet i gs).length = gs.length := by
  induction gs with
  | nil => intro i; rfl
  | cons a t ih =>
      intro i
      cases a with
      | mk ta ga => simp [summaryFrom, ih (i + 1)]

theorem summaryFrom_map_fst (listSet : List String → List String)
    (gs : List (String × GroupData)) :
    ∀ i : ℕ, (summaryFrom listSet i gs).map Prod.fst
      = (List.range gs.length).map fun k => lightsLabel (i + k) := by
  induction gs with
  | nil => intro i; rfl
  | cons a t ih =>
      intro i
      cases a with
      | mk ta ga =>
      show lightsLabel i :: (summaryFrom listSet (i + 1) t).map Prod.fst = _
      rw [ih (i + 1), List.length_cons, List.range_succ_eq_map, List.map_cons,
        List.map_map]
      have htail : ((List.range t.length).map fun k => lightsLabel (i + 1 + k))
          = (List.range t.length).map ((fun k => lightsLabel (i + k)) ∘ Nat.succ) := by
        refine List.map_congr_left ?_
        intro k _
        simp only [Function.comp_apply]
        congr 1
        omega
      rw [htail]
      simp

theorem summaryFrom_getElem? (listSet : List String → List String)
    (gs : List (String × GroupData)) :
    ∀ (i k : ℕ), (summaryFrom listSet i gs)[k]?
      = gs[k]?.map fun q => (lightsLabel (i + k), mkGroup listSet q.1 q.2) := by
  induction gs with
  | nil => intro i k; simp [summaryFrom]
  | cons a t ih =>
      intro i k
      cases a with
      | mk ta ga =>
      cases k with
      | zero => simp [summaryFrom]
      | succ k =>
          rw [show summaryFrom listSet i ((ta, ga) :: t)
              = (lightsLabel i, mkGroup listSet ta ga) :: summaryFrom listSet (i + 1) t
            from rfl]
          rw [List.getElem?_cons_succ, List.getElem?_cons_succ, ih (i + 1) k,
            show i + 1 + k = i + (k + 1) from by omega]

/-- C5 (amended): the fallback summary has one group per distinct
`fixture_type`, labelled `"Lights01"`, `"Lights02"`, … in first-encounter
order of the types, and each group's description is one of the accumulated
non-empty descriptions of its type (which one is decided by the
implementation-defined iteration order `listSet` of the Python `set`) or, if
no detection of the type carried a non-empty description, the title-cased type
name with underscores replaced by spaces followed by `" Fixture"`. -/
theorem fallback_labels_and_descriptions (listSet : List String → List String)
    (hperm : ∀ l : List String, (listSet l).Perm l)
    (detections : List LDetection) (_hne : detections ≠ []) :
    ((_fallback_grouping listSet detections ()).summary.map Prod.fst
        = (List.range (firstEncounterTypes detections).length).map
            fun i => lightsLabel (i + 1))
    ∧ ∀ i, i < (_fallback_grouping listSet detections ()).summary.length →
        ((((_fallback_grouping listSet detections ()).summary.getD i
              ("", ⟨0, "", []⟩)).2.description
            ∈ typeDescriptions detections ((firstEncounterTypes detections).getD i ""))
          ∨ (typeDescriptions detections
                ((firstEncounterTypes detections).getD i "") = []
              ∧ (((_fallback_grouping listSet detections ()).summary.getD i
                    ("", ⟨0, "", []⟩)).2.description
                  = defaultDescription
                      ((firstEncounterTypes detections).getD i "")))) := by
  have hsum : (_fallback_grouping listSet detections ()).summary
      = summaryFrom listSet 1 (accumGroups detections) := rfl
  constructor
  · rw [hsum, summaryFrom_map_fst, accumGroups_eq, List.length_map]
    refine List.map_congr_left ?_
    intro k _
    congr 1
    omega
  · intro i hi
    rw [hsum, summaryFrom_length, accumGroups_eq, List.length_map] at hi
    rcases ht : (firstEncounterTypes detections)[i]? with _ | t
    · rw [List.getElem?_eq_none_iff] at ht
      omega
    have hSget : (_fallback_grouping listSet detections ()).summary[i]?
        = some (lightsLabel (1 + i), mkGroup listSet t (groupOf detections t)) := by
      rw [hsum, summaryFrom_getElem?, accumGroups_eq, List.getElem?_map, ht]
      rfl
    have hgetD : ((_fallback_grouping listSet detections ()).summary.getD i
          ("", ⟨0, "", []⟩))
        = (lightsLabel (1 + i), mkGroup listSet t (groupOf detections t)) := by
      rw [List.getD_eq_getElem?_getD, hSget]
      rfl
    have htD : (firstEncounterTypes detections).getD i "" = t := by
      rw [List.getD_eq_getElem?_getD, ht]
      rfl
    rw [hgetD, htD]
    show (mkGroup listSet t (groupOf detections t)).description
          ∈ typeDescriptions detections t
        ∨ (typeDescriptions detections t = []
          ∧ (mkGroup listSet t (groupOf detections t)).description
              = defaultDescription t)
    unfold mkGroup groupOf
    rcases hls : listSet (dedupIns (typeDescriptions detections t)) with _ | ⟨d0, rest⟩
    · right
      have hp := hperm (dedupIns (typeDescriptions detections t))
      rw [hls] at hp
      have hnil : dedupIns (typeDescriptions detections t) = [] := hp.symm.eq_nil
      refine ⟨dedupIns_eq_nil_iff.mp hnil, ?_⟩
      simp only [hls]
    · left
      have hd0 : d0 ∈ listSet (dedupIns (typeDescriptions detections t)) := by
        rw [hls]
        simp
      have hmem : d0 ∈ dedupIns (typeDescriptions detections t) :=
        (hperm _).subset hd0
      have hd0' : d0 ∈ typeDescriptions detections t := dedupIns_subset hmem
      simpa only [hls] using hd0'

/-- The identity as a set-listing function: `list(s)` returning insertion
order. -/
def listSetId : List String → List String := fun l => l

/-- Reversal as a set-listing function: a hash order that happens to invert
insertion order. -/
def listSetRev : List String → List String := fun l => l.reverse

/-- A decode function on which every JSON decoding attempt fails. -/
def decodeNone : String → Option ClassResult := fun _ => none

/-- A detection of type `emergency_light` with description `"Desc A"`. -/
def cexDetA : LDetection := ⟨"A1", "emergency_light", "Desc A", [], [], "E-101", 1⟩

/-- A second detection of the same type with description `"Desc B"`. -/
def cexDetB : LDetection := ⟨"A1", "emergency_light", "Desc B", [], [], "E-101", 1⟩

/-- A detection of type `emergency_light` with an empty description. -/
def cexDetEmptyDesc : LDetection := ⟨"A1", "emergency_light", "", [], [], "E-101", 1⟩

/-- Counterexample to C5 as stated: with two accumulated descriptions
`"Desc A"` then `"Desc B"` and a hash order that inverts insertion order
(a legitimate listing of the `set`, as witnessed by the permutation fact),
the emitted group description is `"Desc B"`, not the first accumulated
description `"Desc A"`. -/
theorem fallback_first_description_cex :
    (listSetRev ["Desc A", "Desc B"]).Perm ["Desc A", "Desc B"]
    ∧ (((_fallback_grouping listSetRev [cexDetA, cexDetB] ()).summary.getD 0
          ("", ⟨0, "", []⟩)).2.description = "Desc B")
    ∧ ("Desc B" : String) ≠ "Desc A" :=
  ⟨List.reverse_perm _, by rfl, by decide⟩

/-- Witness for `fallback_labels_and_descriptions` at one concrete detection
whose description is empty, with insertion-order listing. -/
theorem fallback_labels_and_descriptions_witness :
    [cexDetEmptyDesc] ≠ ([] : List LDetection)
    ∧ (_fallback_grouping listSetId [cexDetEmptyDesc] ()).summary.map Prod.fst
        = ["Lights01"] := by
  refine ⟨by simp, ?_⟩
  have h := (fallback_labels_and_descriptions listSetId (fun l => List.Perm.refl l)
    [cexDetEmptyDesc] (by simp)).1
  rw [h]
  rfl

/-- C2 (amended): whenever the external path is taken and the response does
not contain a decodable JSON object — no brace-delimited slice, or `json.loads`
fails on it — `_parse_llm_response` swallows the error and
`classify_and_group_emergency_lighting` returns
`{"summary": {}, "detailed_detections": []}`, not the `_fallback_grouping`
result; the fallback runs only when the key is falsy or the API call itself
raises. -/
theorem classify_parse_failure_returns_empty (listSet : List String → List String)
    (api_key : String) (hkey : api_key ≠ "")
    (decode : String → Option ClassResult) (detections : List LDetection)
    (response : String)
    (hfail : braceSlice response = none ∨
      ∃ js, braceSlice response = some js ∧ decode js = none) :
    classify_and_group_emergency_lighting listSet api_key (.ok response) decode
      detections () = emptyResult := by
  unfold classify_and_group_emergency_lighting
  rw [if_neg hkey]
  show _parse_llm_response decode response = emptyResult
  unfold _parse_llm_response
  rcases hfail with h | ⟨js, h1, h2⟩
  · rw [h]
  · rw [h1]
    show (match decode js with
        | some result => result
        | none => emptyResult) = emptyResult
    rw [h2]

/-- Witness for `classify_parse_failure_returns_empty` on a response with no
braces at all. -/
theorem classify_parse_failure_returns_empty_witness :
    ("key" : String) ≠ ""
    ∧ braceSlice "no json here" = none
    ∧ classify_and_group_emergency_lighting listSetId "key" (.ok "no json here")
        decodeNone [cexDetA] () = emptyResult :=
  ⟨by decide, by rfl,
    classify_parse_failure_returns_empty listSetId "key" (by decide) decodeNone
      [cexDetA] "no json here" (Or.inl (by rfl))⟩

/-- Counterexample to C2 as stated: with one detection and an unparseable
response, the classifier returns the empty structure while the fallback
result has one `Lights01` group and one detailed record, so the two differ. -/
theorem classify_parse_failure_cex :
    classify_and_group_emergency_lighting listSetId "key" (.ok "no json here")
        decodeNone [cexDetA] () = emptyResult
    ∧ (_fallback_grouping listSetId [cexDetA] ()).summary.length = 1
    ∧ classify_and_group_emergency_lighting listSetId "key" (.ok "no json here")
        decodeNone [cexDetA] ()
      ≠ _fallback_grouping listSetId [cexDetA] () := by
  refine ⟨by rfl, by rfl, ?_⟩
  intro h
  have hlen := congrArg (fun r : ClassResult => r.summary.length) h
  simp only at hlen
  rw [show classify_and_group_emergency_lighting listSetId "key" (.ok "no json here")
      decodeNone [cexDetA] () = emptyResult from rfl] at hlen
  simp [emptyResult] at hlen
  rw [show ((_fallback_grouping listSetId [cexDetA] ()).summary.length) = 1 from rfl]
    at hlen
  exact absurd hlen (by decide)

end Classifier

/-! ## `text_association.py` : spatial association, symbols and typing

The Python module drives `re.search` and `re.findall` over a fixed, closed set
of patterns.  The embedding implements the regular expressions as an explicit
syntax tree with a Brzozowski-derivative Boolean matcher for `re.search`, and
a priority (backtracking-order) matcher for extracting matched substrings,
mirroring Python's leftmost / first-alternative / greedy match semantics. -/

namespace TextAssoc

/-- Regular-expression syntax: empty language, empty string, single character,
character class, concatenation, alternation (Python's `|`, left first),
Kleene star (greedy). -/
inductive RE : Type
  | fail : RE
  | eps : RE
  | ch : Char → RE
  | cls : (Char → Bool) → RE
  | cat : RE → RE → RE
  | alt : RE → RE → RE
  | star : RE → RE

/-- Does the expression accept the empty string? -/
def nullable : RE → Bool
  | .fail => false
  | .eps => true
  | .ch _ => false
  | .cls _ => false
  | .cat a b => nullable a && nullable b
  | .alt a b => nullable a || nullable b
  | .star _ => true

/-- Brzozowski derivative with respect to one character. -/
def deriv : RE → Char → RE
  | .fail, _ => .fail
  | .eps, _ => .fail
  | .ch c, a => if a = c then .eps else .fail
  | .cls p, a => if p a then .eps else .fail
  | .cat r s, a =>
      if nullable r then .alt (.cat (deriv r a) s) (deriv s a)
      else .cat (deriv r a) s
  | .alt r s, a => .alt (deriv r a) (deriv s a)
  | .star r, a => .cat (deriv r a) (.star r)

/-- Does some prefix of `cs` match `r`? -/
def matchesSomeHead (r : RE) : List Char → Bool
  | [] => nullable r
  | c :: rest => nullable r || matchesSomeHead (deriv r c) rest

/-- `re.search(r, s) is not None`: some substring of `cs` (equivalently, some
prefix of some suffix) matches `r`. -/
def searchB (r : RE) (cs : List Char) : Bool :=
  matchesSomeHead r cs ||
    match cs with
    | [] => false
    | _ :: rest => searchB r rest

/-- Priority-ordered matches of `r` at the head of `cs`: each entry is
`(consumed, remaining)`.  Alternatives are tried left to right and `star` is
greedy, so the head of the list is the match Python's backtracking engine
returns.  `fuel` bounds the recursion; every call site supplies enough fuel
for the patterns at hand. -/
def matchHeads : ℕ → RE → List Char → List (List Char × List Char)
  | 0, _, _ => []
  | _ + 1, .fail, _ => []
  | _ + 1, .eps, cs => [([], cs)]
  | _ + 1, .ch c, cs =>
      match cs with
      | [] => []
      | a :: rest => if a = c then [([a], rest)] else []
  | _ + 1, .cls p, cs =>
      match cs with
      | [] => []
      | a :: rest => if p a then [([a], rest)] else []
  | fuel + 1, .alt r s, cs => matchHeads fuel r cs ++ matchHeads fuel s cs
  | fuel + 1, .cat r s, cs =>
      (matchHeads fuel r cs).flatMap fun pr =>
        (matchHeads fuel s pr.2).map fun qr => (pr.1 ++ qr.1, qr.2)
  | fuel + 1, .star r, cs =>
      (((matchHeads fuel r cs).filter fun pr => !pr.1.isEmpty).flatMap fun pr =>
        (matchHeads fuel (.star r) pr.2).map fun qr => (pr.1 ++ qr.1, qr.2))
      ++ [([], cs)]

/-- Structural size of an expression, used to pick a sufficient fuel. -/
def reSize : RE → ℕ
  | .fail => 1
  | .eps => 1
  | .ch _ => 1
  | .cls _ => 1
  | .cat a b => reSize a + reSize b + 1
  | .alt a b => reSize a + reSize b + 1
  | .star a => reSize a + 1

/-- Fuel sufficient for matching `r` against `cs`. -/
def fuelFor (r : RE) (cs : List Char) : ℕ :=
  (reSize r + 1) * (cs.length + 2)

/-- The substring matched by `re.search(r, s)` (`match.group()`): scan start
positions left to right; at the first position with a match, return the
priority match. -/
def searchFirst (r : RE) : List Char → Option (List Char)
  | [] =>
      match matchHeads (fuelFor r []) r [] with
      | m :: _ => some m.1
      | [] => none
  | c :: rest =>
      match matchHeads (fuelFor r (c :: rest)) r (c :: rest) with
      | m :: _ => some m.1
      | [] => searchFirst r rest

/-- The scanning loop of `re.findall(r, s)`: non-overlapping matches left to
right, continuing after each match end (advancing one position past an empty
match). -/
def findallGo (r : RE) : ℕ → List Char → List (List Char)
  | 0, _ => []
  | fuel + 1, cs =>
      match matchHeads (fuelFor r cs) r cs with
      | m :: _ =>
          if m.1.isEmpty then
            match cs with
            | [] => []
            | _ :: rest => findallGo r fuel rest
          else m.1 :: findallGo r fuel m.2
      | [] =>
          match cs with
          | [] => []
          | _ :: rest => findallGo r fuel rest

/-- `re.findall(r, s)` for the group-free token patterns. -/
def findall (r : RE) (cs : List Char) : List (List Char) :=
  findallGo r (cs.length + 1) cs

/-- The regex literal for a string of characters. -/
def rstr (s : String) : RE :=
  s.data.foldr (fun c r => RE.cat (RE.ch c) r) RE.eps

/-- `\s*`. -/
def ws : RE := RE.star (RE.cls Char.isWhitespace)

/-- `r?` (greedy). -/
def ropt (r : RE) : RE := RE.alt r RE.eps

/-- `\d+`. -/
def digits : RE := RE.cat (RE.cls Char.isDigit) (RE.star (RE.cls Char.isDigit))

/-- The apostrophe, by code point. -/
def squote : Char := Char.ofNat 39

/-- The double quote, by code point. -/
def dquote : Char := Char.ofNat 34

/-- `['"]`. -/
def quoteCls : RE := RE.cls fun c => c = squote || c = dquote

/-- Right-nested concatenation of a list of expressions. -/
def catL (l : List RE) : RE := l.foldr RE.cat RE.eps

/-- `(2\s*['"]?\s*[xX]\s*4\s*['"]?\s*RECESSED\s*LED|LED\s*LUMINAIRE)`. -/
def reRecessedLed : RE :=
  RE.alt
    (catL [rstr "2", ws, ropt quoteCls, ws, RE.cls (fun c => c = 'x' || c = 'X'),
      ws, rstr "4", ws, ropt quoteCls, ws, rstr "RECESSED", ws, rstr "LED"])
    (catL [rstr "LED", ws, rstr "LUMINAIRE"])

/-- `(WALLPACK|WALL\s*PACK|WALL\s*MOUNTED)`. -/
def reWallpack : RE :=
  RE.alt (rstr "WALLPACK")
    (RE.alt (catL [rstr "WALL", ws, rstr "PACK"])
      (catL [rstr "WALL", ws, rstr "MOUNTED"]))

/-- `(EXIT|EMERGENCY\s*EXIT|A1E|A\d+E)`. -/
def reEmergencyExit : RE :=
  RE.alt (rstr "EXIT")
    (RE.alt (catL [rstr "EMERGENCY", ws, rstr "EXIT"])
      (RE.alt (rstr "A1E") (catL [rstr "A", digits, rstr "E"])))

/-- `(EMERGENCY|EM|EL\d+|E\d+)`. -/
def reEmergencyLight : RE :=
  RE.alt (rstr "EMERGENCY")
    (RE.alt (rstr "EM")
      (RE.alt (catL [rstr "EL", digits]) (catL [rstr "E", digits])))

/-- `(PHOTOCELL|PHOTO\s*CELL)`. -/
def rePhotocell : RE :=
  RE.alt (rstr "PHOTOCELL") (catL [rstr "PHOTO", ws, rstr "CELL"])

/-- The `self.emergency_patterns` dict of `TextAssociation.__init__`, in its
insertion (= iteration) order. -/
def emergency_patterns : List (String × RE) :=
  [("recessed_led", reRecessedLed),
   ("wallpack", reWallpack),
   ("emergency_exit", reEmergencyExit),
   ("emergency_light", reEmergencyLight),
   ("photocell", rePhotocell)]

/-- The `symbol_patterns` list of `_extract_symbols_from_text`:
`EL\d+`, `A\d+E?`, `E\d+`, `[A-Z]\d+`, `EXIT`, `EMERGENCY`, `EM`. -/
def symbol_patterns : List RE :=
  [catL [rstr "EL", digits],
   catL [rstr "A", digits, ropt (rstr "E")],
   catL [rstr "E", digits],
   catL [RE.cls Char.isUpper, digits],
   rstr "EXIT",
   rstr "EMERGENCY",
   rstr "EM"]

/-- Python `str.upper()` (ASCII). -/
def pyUpper (s : String) : String := ⟨s.data.map Char.toUpper⟩

/-- An OCR text block: a bounding box and the recognised text. -/
structure TextBlock where
  bounding_box : List ℤ
  text : String
deriving DecidableEq

/-- A candidate fixture as consumed by `associate_text_with_fixtures`: the
keys the function reads or copies. -/
structure Fixture where
  bounding_box : List ℤ
  confidence : ℚ
  method : String
  area : ℚ
deriving DecidableEq

/-- A fixture decorated by association: the input's keys plus the four added
ones. -/
structure AssociatedFixture where
  bounding_box : List ℤ
  confidence : ℚ
  method : String
  area : ℚ
  text_nearby : List String
  symbols : List String
  fixture_type : String
  primary_symbol : Option String
deriving DecidableEq

/-- A box center coordinate `(a + b) // 2` (Python floor division). -/
def center2 (a b : ℤ) : ℤ := Int.fdiv (a + b) 2

/-- The distance test `np.sqrt(dx**2 + dy**2) <= threshold` on integer center
coordinates, decided on squares.  `np.sqrt` is correctly rounded and monotone
and the threshold is integral, so for integer inputs the float comparison and
the exact comparison `dx² + dy² ≤ threshold²` agree
(`withinThreshold_iff_sqrt` states the equivalence against the real square
root). -/
def withinThreshold (threshold dx dy : ℤ) : Bool :=
  decide (dx * dx + dy * dy ≤ threshold * threshold)

/-- Embedding of `TextAssociation._find_nearby_text`: text blocks are scanned
in order; a block with a malformed box is skipped; a block within the distance
threshold contributes its stripped text when non-empty. -/
def _find_nearby_text (threshold : ℤ) (tx1 ty1 tx2 ty2 : ℤ)
    (text_blocks : List TextBlock) : List String :=
  match text_blocks with
  | [] => []
  | b :: rest =>
      match b.bounding_box with
      | [x1, y1, x2, y2] =>
          if withinThreshold threshold (center2 tx1 tx2 - center2 x1 x2)
              (center2 ty1 ty2 - center2 y1 y2) then
            if b.text.trim ≠ "" then
              b.text.trim :: _find_nearby_text threshold tx1 ty1 tx2 ty2 rest
            else _find_nearby_text threshold tx1 ty1 tx2 ty2 rest
          else _find_nearby_text threshold tx1 ty1 tx2 ty2 rest
      | _ => _find_nearby_text threshold tx1 ty1 tx2 ty2 rest

/-- Ascending insertion into a sorted list of strings (code-point order, as
Python compares strings). -/
def insertAsc (s : String) : List String → List String
  | [] => [s]
  | x :: xs => if s < x then s :: x :: xs else x :: insertAsc s xs

/-- `symbols.sort()` on the deduplicated symbol list. -/
def sortStrings : List String → List String
  | [] => []
  | s :: rest => insertAsc s (sortStrings rest)

/-- Embedding of `TextAssociation._extract_symbols_from_text`: per text, run
`re.findall` for each token pattern and collect every match, then for each
named domain pattern add the `re.search` match when one exists; finally
deduplicate (`set`) and sort.  The sort makes the set's iteration order
irrelevant: the result is the ascending list of the distinct symbols. -/
def _extract_symbols_from_text (text_list : List String) : List String :=
  let symbols := text_list.foldl
    (fun acc text =>
      let tU := (pyUpper text).data
      let acc := symbol_patterns.foldl
        (fun a p => a ++ (findall p tU).map fun m => (⟨m⟩ : String)) acc
      emergency_patterns.foldl
        (fun a p =>
          if searchB p.2 tU then
            match searchFirst p.2 tU with
            | some m => a ++ [(⟨m⟩ : String)]
            | none => a
          else a) acc)
    []
  sortStrings (dedupIns symbols)

/-- Embedding of `TextAssociation._classify_fixture_type`: first pattern of
`emergency_patterns` matching the upper-cased concatenation wins; otherwise
the EXIT / EMERGENCY containment fallback; otherwise `unknown`. -/
def _classify_fixture_type (text_list : List String) : String :=
  let combined_text := pyUpper (String.intercalate " " text_list)
  match emergency_patterns.find? (fun p => searchB p.2 combined_text.data) with
  | some p => p.1
  | none =>
      if text_list.any (fun t => decide ("EXIT".data <:+: (pyUpper t).data)) then
        "emergency_exit"
      else if text_list.any
          (fun t => decide ("EMERGENCY".data <:+: (pyUpper t).data)) then
        "emergency_light"
      else "unknown"

/-- The body of the per-fixture work of `associate_text_with_fixtures` for a
fixture with a well-formed box: `fixture.copy()` plus `update` with the four
new keys.  (The catch-all arm is unreachable from
`associate_text_with_fixtures`, which filters malformed boxes first; it also
copies the base fields.) -/
def decorate (threshold : ℤ) (text_blocks : List TextBlock)
    (fixture : Fixture) : AssociatedFixture :=
  match fixture.bounding_box with
  | [x1, y1, x2, y2] =>
      let nearby_text := _find_nearby_text threshold x1 y1 x2 y2 text_blocks
      let symbols := _extract_symbols_from_text nearby_text
      { bounding_box := fixture.bounding_box
        confidence := fixture.confidence
        method := fixture.method
        area := fixture.area
        text_nearby := nearby_text
        symbols := symbols
        fixture_type := _classify_fixture_type nearby_text
        primary_symbol := symbols.head? }
  | _ =>
      { bounding_box := fixture.bounding_box
        confidence := fixture.confidence
        method := fixture.method
        area := fixture.area
        text_nearby := []
        symbols := []
        fixture_type := "unknown"
        primary_symbol := none }

/-- Embedding of `TextAssociation.associate_text_with_fixtures`: fixtures with
a malformed bounding box are skipped (`continue`); each remaining fixture is
decorated. -/
def associate_text_with_fixtures (threshold : ℤ) (fixtures : List Fixture)
    (text_blocks : List TextBlock) : List AssociatedFixture :=
  fixtures.filterMap fun fixture =>
    match fixture.bounding_box with
    | [_, _, _, _] => some (decorate threshold text_blocks fixture)
    | _ => none

/-- The squared-distance decision agrees with the float comparison
`np.sqrt(dx**2 + dy**2) <= threshold` read over the reals. -/
theorem withinThreshold_iff_sqrt (threshold dx dy : ℤ) (hthr : 0 ≤ threshold) :
    withinThreshold threshold dx dy = true ↔
      Real.sqrt ((dx : ℝ) ^ 2 + (dy : ℝ) ^ 2) ≤ (threshold : ℝ) := by
  have hthr' : (0 : ℝ) ≤ (threshold : ℝ) := by exact_mod_cast hthr
  rw [withinThreshold, decide_eq_true_eq, Real.sqrt_le_left hthr',
    show ((dx : ℝ) ^ 2 + (dy : ℝ) ^ 2) = ((dx * dx + dy * dy : ℤ) : ℝ) by
      push_cast; ring,
    show ((threshold : ℝ) ^ 2) = ((threshold * threshold : ℤ) : ℝ) by
      push_cast; ring,
    Int.cast_le]

/-- C6: a text block's trimmed text enters `text_nearby` exactly when the
block has a well-formed 4-element box, its trimmed text is non-empty, and the
Euclidean distance between the (floor-divided) box centers is at most the
threshold; and in scenario C a candidate centered at `(100, 100)` is not
associated with a text block centered at `(300, 100)` under threshold 150. -/
theorem find_nearby_text_spec (threshold : ℤ) (hthr : 0 ≤ threshold)
    (tx1 ty1 tx2 ty2 : ℤ) (text_blocks : List TextBlock) (s : String) :
    (s ∈ _find_nearby_text threshold tx1 ty1 tx2 ty2 text_blocks ↔
      ∃ b ∈ text_blocks, ∃ x1 y1 x2 y2 : ℤ,
        b.bounding_box = [x1, y1, x2, y2] ∧ s = b.text.trim ∧ s ≠ "" ∧
        Real.sqrt (((center2 tx1 tx2 - center2 x1 x2 : ℤ) : ℝ) ^ 2
            + ((center2 ty1 ty2 - center2 y1 y2 : ℤ) : ℝ) ^ 2)
          ≤ (threshold : ℝ))
    ∧ "EXIT" ∉ _find_nearby_text 150 0 0 200 200 [⟨[200, 0, 400, 200], "EXIT"⟩] := by
  constructor
  · induction text_blocks with
    | nil => simp [_find_nearby_text]
    | cons b rest ih =>
        have hlift : (∃ b' ∈ rest, ∃ x1 y1 x2 y2 : ℤ,
            b'.bounding_box = [x1, y1, x2, y2] ∧ s = b'.text.trim ∧ s ≠ "" ∧
            Real.sqrt (((center2 tx1 tx2 - center2 x1 x2 : ℤ) : ℝ) ^ 2
                + ((center2 ty1 ty2 - center2 y1 y2 : ℤ) : ℝ) ^ 2)
              ≤ (threshold : ℝ)) →
            ∃ b' ∈ b :: rest, ∃ x1 y1 x2 y2 : ℤ,
            b'.bounding_box = [x1, y1, x2, y2] ∧ s = b'.text.trim ∧ s ≠ "" ∧
            Real.sqrt (((center2 tx1 tx2 - center2 x1 x2 : ℤ) : ℝ) ^ 2
                + ((center2 ty1 ty2 - center2 y1 y2 : ℤ) : ℝ) ^ 2)
              ≤ (threshold : ℝ) := by
          rintro ⟨b', hb', h⟩
          exact ⟨b', List.mem_cons_of_mem _ hb', h⟩
        rcases hbb : b.bounding_box with _ | ⟨a1, _ | ⟨a2, _ | ⟨a3, _ | ⟨a4, _ | ⟨a5, tl⟩⟩⟩⟩⟩
        case nil | cons.nil | cons.cons.nil | cons.cons.cons.nil
          | cons.cons.cons.cons.cons =>
          rw [show _find_nearby_text threshold tx1 ty1 tx2 ty2 (b :: rest)
              = _find_nearby_text threshold tx1 ty1 tx2 ty2 rest by
            rw [_find_nearby_text, hbb]]
          rw [ih]
          constructor
          · exact hlift
          · rintro ⟨b', hb', x1, y1, x2, y2, hbox, h⟩
            rcases List.mem_cons.mp hb' with rfl | hb'
            · rw [hbb] at hbox
              simp at hbox
            · exact ⟨b', hb', x1, y1, x2, y2, hbox, h⟩
        case cons.cons.cons.cons.nil =>
          by_cases hW : withinThreshold threshold (center2 tx1 tx2 - center2 a1 a3)
              (center2 ty1 ty2 - center2 a2 a4) = true
          · by_cases hT : b.text.trim ≠ ""
            · rw [show _find_nearby_text threshold tx1 ty1 tx2 ty2 (b :: rest)
                  = b.text.trim :: _find_nearby_text threshold tx1 ty1 tx2 ty2 rest by
                rw [_find_nearby_text, hbb]
                simp [hW, hT]]
              rw [List.mem_cons, ih]
              constructor
              · rintro (rfl | h)
                · exact ⟨b, List.mem_cons_self b rest, a1, a2, a3, a4, hbb, rfl, hT,
                    (withinThreshold_iff_sqrt threshold _ _ hthr).mp hW⟩
                · exact hlift h
              · rintro ⟨b', hb', x1, y1, x2, y2, hbox, hs, hne, hd⟩
                rcases List.mem_cons.mp hb' with rfl | hb'
                · exact Or.inl hs
                · exact Or.inr ⟨b', hb', x1, y1, x2, y2, hbox, hs, hne, hd⟩
            · rw [show _find_nearby_text threshold tx1 ty1 tx2 ty2 (b :: rest)
                  = _find_nearby_text threshold tx1 ty1 tx2 ty2 rest by
                rw [_find_nearby_text, hbb]
                simp [hW, hT]]
              rw [ih]
              constructor
              · exact hlift
              · rintro ⟨b', hb', x1, y1, x2, y2, hbox, hs, hne, hd⟩
                rcases List.mem_cons.mp hb' with rfl | hb'
                · rw [not_not] at hT
                  exact absurd (hs.trans hT) hne
                · exact ⟨b', hb', x1, y1, x2, y2, hbox, hs, hne, hd⟩
          · rw [show _find_nearby_text threshold tx1 ty1 tx2 ty2 (b :: rest)
                = _find_nearby_text threshold tx1 ty1 tx2 ty2 rest by
              rw [_find_nearby_text, hbb]
              simp [hW]]
            rw [ih]
            constructor
            · exact hlift
            · rintro ⟨b', hb', x1, y1, x2, y2, hbox, hs, hne, hd⟩
              rcases List.mem_cons.mp hb' with rfl | hb'
              · rw [hbb] at hbox
                injection hbox with e1 hbox
                injection hbox with e2 hbox
                injection hbox with e3 hbox
                injection hbox with e4 _
                subst e1; subst e2; subst e3; subst e4
                exact absurd ((withinThreshold_iff_sqrt threshold _ _ hthr).mpr hd) hW
              · exact ⟨b', hb', x1, y1, x2, y2, hbox, hs, hne, hd⟩
  · decide

/-- Witness for `find_nearby_text_spec` at threshold 150, a candidate box
`[0, 0, 200, 200]` and the single scenario-C text block. -/
theorem find_nearby_text_spec_witness :
    (0 : ℤ) ≤ 150
    ∧ "EXIT" ∉ _find_nearby_text 150 0 0 200 200 [⟨[200, 0, 400, 200], "EXIT"⟩] :=
  ⟨by decide,
    (find_nearby_text_spec 150 (by decide) 0 0 200 200
      [⟨[200, 0, 400, 200], "EXIT"⟩] "EXIT").2⟩

/-- The closed fixture-type vocabulary. -/
def fixtureVocab : List String :=
  ["recessed_led", "wallpack", "emergency_exit", "emergency_light", "photocell",
   "unknown"]

/-- C8: `_classify_fixture_type` always yields a value of the closed
vocabulary; when none of the five named domain patterns matches the
upper-cased concatenation of the nearby texts, the EXIT / EMERGENCY
containment fallback decides the result; and the patterns are tried in the
fixed priority order `recessed_led, wallpack, emergency_exit,
emergency_light, photocell` with the first match winning. -/
theorem classify_fixture_type_spec (text_list : List String) :
    (_classify_fixture_type text_list ∈ fixtureVocab)
    ∧ ((∀ p ∈ emergency_patterns,
          searchB p.2 (pyUpper (String.intercalate " " text_list)).data = false) →
        _classify_fixture_type text_list =
          (if text_list.any (fun t => decide ("EXIT".data <:+: (pyUpper t).data))
           then "emergency_exit"
           else if text_list.any
              (fun t => decide ("EMERGENCY".data <:+: (pyUpper t).data))
           then "emergency_light"
           else "unknown"))
    ∧ ∀ i, i < emergency_patterns.length →
        searchB (emergency_patterns.getD i ("", RE.fail)).2
            (pyUpper (String.intercalate " " text_list)).data = true →
        (∀ j, j < i →
          searchB (emergency_patterns.getD j ("", RE.fail)).2
              (pyUpper (String.intercalate " " text_list)).data = false) →
        _classify_fixture_type text_list
          = (emergency_patterns.getD i ("", RE.fail)).1 := by
  refine ⟨?_, ?_, ?_⟩
  · simp only [_classify_fixture_type]
    rcases hf : emergency_patterns.find?
        (fun p => searchB p.2 (pyUpper (String.intercalate " " text_list)).data)
      with _ | p
    · rw [hf]
      split_ifs <;> simp [fixtureVocab]
    · have hp : p ∈ emergency_patterns := List.mem_of_find?_eq_some hf
      rw [hf]
      simp only [emergency_patterns, List.mem_cons, List.mem_singleton] at hp
      rcases hp with rfl | rfl | rfl | rfl | rfl | h
      · simp [fixtureVocab]
      · simp [fixtureVocab]
      · simp [fixtureVocab]
      · simp [fixtureVocab]
      · simp [fixtureVocab]
      · simp at h
  · intro hnone
    have hf : emergency_patterns.find?
        (fun p => searchB p.2 (pyUpper (String.intercalate " " text_list)).data)
        = none := by
      rw [List.find?_eq_none]
      intro p hp
      simp [hnone p hp]
    simp only [_classify_fixture_type]
    rw [hf]
  · intro i hi hmatch hbefore
    simp only [emergency_patterns, List.length_cons, List.length_nil] at hi
    simp only [_classify_fixture_type]
    interval_cases i
    · simp [emergency_patterns, List.getD] at hmatch ⊢
      rw [List.find?_cons_of_pos _ (by simpa using hmatch)]
    · have h0 := hbefore 0 (by norm_num)
      simp [emergency_patterns, List.getD] at h0 hmatch ⊢
      rw [List.find?_cons_of_neg _ (by simp [h0]),
        List.find?_cons_of_pos _ (by simpa using hmatch)]
    · have h0 := hbefore 0 (by norm_num)
      have h1 := hbefore 1 (by norm_num)
      simp [emergency_patterns, List.getD] at h0 h1 hmatch ⊢
      rw [List.find?_cons_of_neg _ (by simp [h0]),
        List.find?_cons_of_neg _ (by simp [h1]),
        List.find?_cons_of_pos _ (by simpa using hmatch)]
    · have h0 := hbefore 0 (by norm_num)
      have h1 := hbefore 1 (by norm_num)
      have h2 := hbefore 2 (by norm_num)
      simp [emergency_patterns, List.getD] at h0 h1 h2 hmatch ⊢
      rw [List.find?_cons_of_neg _ (by simp [h0]),
        List.find?_cons_of_neg _ (by simp [h1]),
        List.find?_cons_of_neg _ (by simp [h2]),
        List.find?_cons_of_pos _ (by simpa using hmatch)]
    · have h0 := hbefore 0 (by norm_num)
      have h1 := hbefore 1 (by norm_num)
      have h2 := hbefore 2 (by norm_num)
      have h3 := hbefore 3 (by norm_num)
      simp [emergency_patterns, List.getD] at h0 h1 h2 h3 hmatch ⊢
      rw [List.find?_cons_of_neg _ (by simp [h0]),
        List.find?_cons_of_neg _ (by simp [h1]),
        List.find?_cons_of_neg _ (by simp [h2]),
        List.find?_cons_of_neg _ (by simp [h3]),
        List.find?_cons_of_pos _ (by simpa using hmatch)]

/-- Witness for `classify_fixture_type_spec`: nearby text `["A1E"]` matches
the `emergency_exit` pattern (priority index 2) and neither earlier
pattern. -/
theorem classify_fixture_type_spec_witness :
    searchB reEmergencyExit (pyUpper (String.intercalate " " ["A1E"])).data = true
    ∧ _classify_fixture_type ["A1E"] = "emergency_exit" := by
  refine ⟨by decide, ?_⟩
  have h := (classify_fixture_type_spec ["A1E"]).2.2 2 (by simp [emergency_patterns])
    (by decide)
    (by
      intro j hj
      interval_cases j
      · decide
      · decide)
  simpa [emergency_patterns] using h

theorem bb_match_eq_if (threshold : ℤ) (text_blocks : List TextBlock)
    (f : Fixture) :
    (match f.bounding_box with
      | [_, _, _, _] => some (decorate threshold text_blocks f)
      | _ => none)
    = if f.bounding_box.length = 4 then some (decorate threshold text_blocks f)
      else none := by
  rcases f.bounding_box with _ | ⟨a, _ | ⟨b, _ | ⟨c, _ | ⟨d, _ | ⟨e, tl⟩⟩⟩⟩⟩ <;> simp

/-- C10: association never alters the input fixtures: the output is exactly
the (order-preserving) decoration of the fixtures with a valid 4-element
bounding box, and decoration copies `bounding_box`, `confidence`, `method`
and `area` unchanged, only adding the new association fields. -/
theorem associate_preserves_fixture_fields (threshold : ℤ)
    (fixtures : List Fixture) (text_blocks : List TextBlock) :
    (associate_text_with_fixtures threshold fixtures text_blocks
      = ((fixtures.filter fun f => f.bounding_box.length = 4).map
          (decorate threshold text_blocks)))
    ∧ ∀ f : Fixture,
        (decorate threshold text_blocks f).bounding_box = f.bounding_box
        ∧ (decorate threshold text_blocks f).confidence = f.confidence
        ∧ (decorate threshold text_blocks f).method = f.method
        ∧ (decorate threshold text_blocks f).area = f.area := by
  constructor
  · induction fixtures with
    | nil => rfl
    | cons f rest ih =>
        rw [show associate_text_with_fixtures threshold (f :: rest) text_blocks
            = (match f.bounding_box with
                | [_, _, _, _] => some (decorate threshold text_blocks f)
                | _ => none).toList
              ++ associate_text_with_fixtures threshold rest text_blocks by
          simp [associate_text_with_fixtures, List.filterMap_cons]
          rcases f.bounding_box with _ | ⟨a, _ | ⟨b, _ | ⟨c, _ | ⟨d, _ | ⟨e, tl⟩⟩⟩⟩⟩
            <;> simp]
        rw [bb_match_eq_if, List.filter_cons, ih]
        by_cases h4 : f.bounding_box.length = 4
        · simp [h4]
        · simp [h4]
  · intro f
    unfold decorate
    rcases f.bounding_box with _ | ⟨a, _ | ⟨b, _ | ⟨c, _ | ⟨d, _ | ⟨e, tl⟩⟩⟩⟩⟩
      <;> exact ⟨rfl, rfl, rfl, rfl⟩

end TextAssoc

end AIVision
